import Mathlib

/-!
Verification development for the kaelo-hw-alert actuation core
(`hardware_controller.py`, `main.py`).

Shallow embedding conventions:
- Python floats are modelled as rationals (`ℚ`); `max`/`min`-based clamping
  is exact on floats, so this is faithful for the clamping properties.
- `math.sin` and `math.pi` are opaque float computations; they are modelled
  as explicit parameters `msin : ℚ → ℚ` and `mpi : ℚ` of the effect
  definitions, never given a concrete value by the embedding itself.
- Stateful code is modelled by explicit state passing; code that emits
  hardware writes, sleeps and log lines is modelled as producing a trace
  (a `List` of actions/events) in program order.
- `asyncio.sleep dt` is modelled as advancing the event-loop clock by
  exactly `dt` (the idealised scheduler), matching how the spec describes
  the sampled effects.
- Python exceptions are modelled with `Except`/`Option` where the claim
  under study concerns raising behaviour.
-/

namespace Kaelo

/-- `clamp01` from `hardware_controller.py`: `max(0.0, min(1.0, float(x)))`. -/
def clamp01 (x : ℚ) : ℚ := max 0 (min 1 x)

/-- Python-exception kinds relevant to construction code paths. -/
inductive PyError where
  | zeroDivision
  deriving DecidableEq, Repr

/-- State of one `SoftPWM` channel object (fields of the Python class that
the claims mention: pin, period, duty, stop flag, polarity levels). -/
structure SoftPWM where
  pin : Nat
  period : ℚ
  duty : ℚ
  stopFlag : Bool
  onLevel : Nat
  offLevel : Nat
  deriving DecidableEq, Repr

/-- `SoftPWM.__init__`: `self.period = 1.0 / max(1, int(freq_hz))`,
`self._duty = clamp01(initial)`, `self.on_level, self.off_level =
(0, 1) if common_anode else (1, 0)`.  The only Python statement here that
could raise is the float division, which raises `ZeroDivisionError` when
its denominator is zero; the embedding keeps that branch explicit so that
raising behaviour is visible. -/
def softPWM_init (pin : Nat) (freq_hz : Int) (initial : ℚ)
    (common_anode : Bool) : Except PyError SoftPWM :=
  let denom : Int := max 1 freq_hz
  if denom = 0 then .error .zeroDivision
  else .ok
    { pin := pin
      period := 1 / (denom : ℚ)
      duty := clamp01 initial
      stopFlag := false
      onLevel := if common_anode then 0 else 1
      offLevel := if common_anode then 1 else 0 }

/-- `SoftPWM.set_duty`: `self._duty = clamp01(duty)` (under the channel
lock; the lock only serialises access and has no value-level effect). -/
def SoftPWM.set_duty (c : SoftPWM) (d : ℚ) : SoftPWM :=
  { c with duty := clamp01 d }

/-- A sequence of `set_duty` calls over a channel's lifetime. -/
def SoftPWM.applyWrites (c : SoftPWM) (ds : List ℚ) : SoftPWM :=
  ds.foldl SoftPWM.set_duty c

/-- Actions performed on a single pin by the PWM loop body. -/
inductive PinAct where
  | set (pin : Nat) (level : Nat)
  | sleep (dt : ℚ)
  deriving DecidableEq, Repr

/-- One iteration of `SoftPWM._run` after reading `duty` under the lock:
the `duty <= 0.0`, `duty >= 1.0` and intermediate branches, each a
sequence of `set_level`/`time.sleep` calls in program order. -/
def SoftPWM.runCycle (c : SoftPWM) : List PinAct :=
  if c.duty ≤ 0 then
    [.set c.pin c.offLevel, .sleep c.period]
  else if 1 ≤ c.duty then
    [.set c.pin c.onLevel, .sleep c.period]
  else
    [.set c.pin c.onLevel, .sleep (c.period * c.duty),
     .set c.pin c.offLevel, .sleep (c.period * (1 - c.duty))]

/-- Interpret a pin-action list as hold segments: each `set` followed by a
`sleep dt` holds that level for `dt`. -/
def holds : List PinAct → List (Nat × Nat × ℚ)
  | .set p l :: .sleep d :: rest => (p, l, d) :: holds rest
  | _ :: rest => holds rest
  | [] => []

/-- GPIO pin levels as written through `Gpio.set_level`. -/
structure GPIOState where
  level : Nat → Nat

/-- `Gpio.set_level`: `v = 1 if value else 0`, then write `v` to the pin. -/
def Gpio.set_level (g : GPIOState) (pin : Nat) (value : Nat) : GPIOState :=
  { level := fun p => if p = pin then (if value ≠ 0 then 1 else 0) else g.level p }

/-- `SoftPWM.stop`: sets the stop event, `join(timeout=1.0)`, then
`self.gpio.set_level(self.pin, self.off_level)` unconditionally.
`gAfterJoin` is the pin state at the moment `join` returns — whatever the
actuation loop wrote during the bounded wait, whether or not it
acknowledged termination in time; the final `set_level` happens after it
in every case. -/
def SoftPWM.stop (c : SoftPWM) (gAfterJoin : GPIOState) : SoftPWM × GPIOState :=
  ({ c with stopFlag := true }, Gpio.set_level gAfterJoin c.pin c.offLevel)

/-- `HardwareController.__init__` construction of the three PWM channels
(pins 17/27/22 by default, shared `pwm_freq`, initial duty `0.0`); the
controller constructor performs no frequency validation of its own. -/
def controller_init (pwm_freq : Int) (common_anode : Bool) :
    Except PyError (SoftPWM × SoftPWM × SoftPWM) := do
  let r ← softPWM_init 17 pwm_freq 0 common_anode
  let g ← softPWM_init 27 pwm_freq 0 common_anode
  let b ← softPWM_init 22 pwm_freq 0 common_anode
  .ok (r, g, b)

/- ================= C2 ================= -/

lemma clamp01_nonneg (x : ℚ) : 0 ≤ clamp01 x := le_max_left 0 _

lemma clamp01_le_one (x : ℚ) : clamp01 x ≤ 1 := by
  unfold clamp01
  rcases le_total x 1 with h | h
  · simp [min_eq_left h]
  · simp [min_eq_right h]

lemma applyWrites_duty_mem (c : SoftPWM) (ds : List ℚ)
    (hc : 0 ≤ c.duty ∧ c.duty ≤ 1) :
    0 ≤ (c.applyWrites ds).duty ∧ (c.applyWrites ds).duty ≤ 1 := by
  induction ds generalizing c with
  | nil => exact hc
  | cons d rest ih =>
      exact ih (c.set_duty d) ⟨clamp01_nonneg d, clamp01_le_one d⟩

/-- C2: every value `d` passed to `set_duty` is stored as `clamp01 d`
(`clamp(d,0,1)`), and over a channel's entire lifetime — initial duty at
construction followed by any sequence of `set_duty` calls — the stored
duty stays in `[0,1]`. -/
theorem c2_set_duty_clamps :
    (∀ (c : SoftPWM) (d : ℚ), (c.set_duty d).duty = clamp01 d) ∧
    (∀ (pin : Nat) (freq : Int) (ini : ℚ) (ca : Bool) (c0 : SoftPWM)
        (ds : List ℚ), softPWM_init pin freq ini ca = .ok c0 →
      0 ≤ (c0.applyWrites ds).duty ∧ (c0.applyWrites ds).duty ≤ 1) := by
  constructor
  · intro c d; rfl
  · intro pin freq ini ca c0 ds h0
    have hduty : c0.duty = clamp01 ini := by
      unfold softPWM_init at h0
      by_cases hz : (max 1 freq : Int) = 0
      · simp [hz] at h0
      · simp only [hz, if_false] at h0
        cases h0
        rfl
    refine applyWrites_duty_mem c0 ds ?_
    rw [hduty]
    exact ⟨clamp01_nonneg ini, clamp01_le_one ini⟩

/-- Witness for C2 at a concrete channel: construct with frequency 500 and
initial duty 0.3, write the spec's example sequence −0.1, 1.5, 0.5. -/
theorem c2_set_duty_clamps_witness :
    ∃ c0 : SoftPWM, softPWM_init 17 500 (3/10) false = .ok c0 ∧
      ((c0.set_duty (1/2)).duty = clamp01 (1/2) ∧
       0 ≤ (c0.applyWrites [-(1/10), 3/2, 1/2]).duty ∧
       (c0.applyWrites [-(1/10), 3/2, 1/2]).duty ≤ 1) := by
  refine ⟨_, rfl, c2_set_duty_clamps.1 _ _, ?_, ?_⟩
  · exact (c2_set_duty_clamps.2 17 500 (3/10) false _ [-(1/10), 3/2, 1/2] rfl).1
  · exact (c2_set_duty_clamps.2 17 500 (3/10) false _ [-(1/10), 3/2, 1/2] rfl).2

/- ================= C3 ================= -/

/-- C3: in each iteration of the PWM actuation loop, with duty `d` read
under the lock: `d ≤ 0` holds the pin at `off_level` for the full period;
`d ≥ 1` holds it at `on_level` for the full period; otherwise it holds
`on_level` for `period·d` then `off_level` for `period·(1−d)`. -/
theorem c3_run_cycle (c : SoftPWM) :
    (c.duty ≤ 0 → holds c.runCycle = [(c.pin, c.offLevel, c.period)]) ∧
    (1 ≤ c.duty → holds c.runCycle = [(c.pin, c.onLevel, c.period)]) ∧
    (0 < c.duty → c.duty < 1 →
      holds c.runCycle =
        [(c.pin, c.onLevel, c.period * c.duty),
         (c.pin, c.offLevel, c.period * (1 - c.duty))]) := by
  refine ⟨?_, ?_, ?_⟩
  · intro h; simp [SoftPWM.runCycle, h, holds]
  · intro h
    rcases lt_or_le 0 c.duty with hpos | hle
    · have : ¬ c.duty ≤ 0 := not_le.mpr hpos
      simp [SoftPWM.runCycle, this, h, holds]
    · have h0 : c.duty ≤ 0 := hle
      -- duty ≤ 0 and duty ≥ 1 cannot both hold, but if duty ≤ 0 the first
      -- branch fires; show it is impossible under 1 ≤ duty
      exact absurd (le_trans h h0) (by norm_num)
  · intro h0 h1
    have hn0 : ¬ c.duty ≤ 0 := not_le.mpr h0
    have hn1 : ¬ 1 ≤ c.duty := not_le.mpr h1
    simp [SoftPWM.runCycle, hn0, hn1, holds]

/-- Witness for C3 at concrete channels: duty 0, duty 1 and duty 1/2 on a
period-1/500 channel. -/
theorem c3_run_cycle_witness :
    holds (SoftPWM.runCycle ⟨17, 1/500, 0, false, 1, 0⟩) = [(17, 0, 1/500)] ∧
    holds (SoftPWM.runCycle ⟨17, 1/500, 1, false, 1, 0⟩) = [(17, 1, 1/500)] ∧
    holds (SoftPWM.runCycle ⟨17, 1/500, 1/2, false, 1, 0⟩) =
      [(17, 1, (1/500) * (1/2)), (17, 0, (1/500) * (1 - 1/2))] := by
  refine ⟨(c3_run_cycle _).1 (by norm_num),
          (c3_run_cycle _).2.1 (by norm_num),
          (c3_run_cycle _).2.2 (by norm_num) (by norm_num)⟩

/- ================= C4 ================= -/

/-- C4: `stop()` signals termination, waits (boundedly) for the loop, and
then unconditionally writes `off_level` to the pin: whatever state
`gAfterJoin` the bounded join left the hardware in — acknowledged or not —
the pin is at the configured `off_level` when `stop` returns.  The
hypothesis pins down that the channel's polarity levels come from
construction (`off_level ∈ {0,1}`). -/
theorem c4_stop_forces_off (c : SoftPWM) (gAfterJoin : GPIOState)
    (hoff : c.offLevel = 0 ∨ c.offLevel = 1) :
    ((c.stop gAfterJoin).2).level c.pin = c.offLevel ∧
    ((c.stop gAfterJoin).1).stopFlag = true := by
  constructor
  · unfold SoftPWM.stop Gpio.set_level
    rcases hoff with h | h <;> simp [h]
  · rfl

/-- Witness for C4: a common-cathode channel (off_level 0) whose loop left
the pin high (level 1 everywhere) at the end of the bounded join — after
`stop`, the pin reads the configured off_level 0. -/
theorem c4_stop_forces_off_witness :
    ((SoftPWM.stop ⟨17, 1/500, 1/2, false, 1, 0⟩ ⟨fun _ => 1⟩).2).level 17 = 0 ∧
    ((SoftPWM.stop ⟨17, 1/500, 1/2, false, 1, 0⟩ ⟨fun _ => 1⟩).1).stopFlag = true := by
  exact c4_stop_forces_off ⟨17, 1/500, 1/2, false, 1, 0⟩ ⟨fun _ => 1⟩ (Or.inl rfl)

/- ================= C5 ================= -/

/-- C5 counterexample: constructing a PWM channel with frequency 0 (≤ 0)
does NOT raise — `SoftPWM.__init__` computes `1.0 / max(1, int(freq_hz))`,
so construction succeeds with period 1, and the controller's channel
construction succeeds likewise; no `ConfigurationError` is raised (none
exists in the code). -/
theorem c5_freq_zero_constructs :
    softPWM_init 17 0 0 false =
      .ok ⟨17, 1, 0, false, 1, 0⟩ ∧
    (controller_init 0 false).isOk = true := by
  constructor
  · unfold softPWM_init
    norm_num [clamp01]
  · unfold controller_init softPWM_init
    norm_num [Except.isOk, Except.toBool, bind, Except.bind]

/-- C5 amended: for every frequency ≤ 0, channel construction (and the
controller's construction of its three channels) succeeds without raising;
the frequency is silently clamped to 1, giving period 1.0. -/
theorem c5_amended_no_validation (freq : Int) (hfreq : freq ≤ 0)
    (pin : Nat) (ini : ℚ) (ca : Bool) :
    (∃ c : SoftPWM, softPWM_init pin freq ini ca = .ok c ∧ c.period = 1) ∧
    (controller_init freq ca).isOk = true := by
  have hmax : (max 1 freq : Int) = 1 :=
    max_eq_left (le_trans hfreq (by norm_num))
  constructor
  · have h : softPWM_init pin freq ini ca = .ok
        { pin := pin, period := 1, duty := clamp01 ini, stopFlag := false,
          onLevel := if ca then 0 else 1, offLevel := if ca then 1 else 0 } := by
      unfold softPWM_init
      simp [hmax]
    exact ⟨_, h, rfl⟩
  · unfold controller_init softPWM_init
    simp [hmax, Except.isOk, Except.toBool, bind, Except.bind]

/-- Witness for C5 amended at frequency −3. -/
theorem c5_amended_no_validation_witness :
    (∃ c : SoftPWM, softPWM_init 17 (-3) 0 false = .ok c ∧ c.period = 1) ∧
    (controller_init (-3) false).isOk = true :=
  c5_amended_no_validation (-3) (by norm_num) 17 0 false

/- ================= C6 ================= -/

/-- Outcome of `Gpio.close`: the pins whose `release()` ran to completion,
whether the chip handle was closed, and the pin whose release raised (the
exception that propagates out of `close`), if any. -/
structure CloseResult where
  released : List Nat
  chipClosed : Bool
  raised : Option Nat
  deriving DecidableEq, Repr

/-- The release loop inside `Gpio.close` (`for req in self.requests.values():
req.release()`): pins are released in order with no per-item exception
handler, so the first raising release aborts the loop.  `releaseFails p`
models whether releasing pin `p` raises.  Returns the pins actually
released and the first failing pin, if any. -/
def releaseAll : List Nat → (Nat → Bool) → List Nat × Option Nat
  | [], _ => ([], none)
  | p :: rest, f =>
    if f p then ([], some p)
    else
      let r := releaseAll rest f
      (p :: r.1, r.2)

/-- `Gpio.close`: `try: <release loop> finally: self.chip.close()`.  The
`finally` closes the chip handle in every case; an exception raised by the
loop propagates out of `close` after the handle is closed. -/
def Gpio.close (pins : List Nat) (releaseFails : Nat → Bool) : CloseResult :=
  let r := releaseAll pins releaseFails
  { released := r.1, chipClosed := true, raised := r.2 }

/-- C6 counterexample: with reserved pins 5 and 6 where releasing pin 5
raises, `close()` releases nothing further — pin 6 is NOT released — and
the error is NOT swallowed (it propagates); only the chip handle is still
closed.  This refutes "even if releasing one pin raises, every remaining
pin is still released" and "swallowing per-resource release errors". -/
theorem c6_close_abandons_rest :
    Gpio.close [5, 6] (fun p => p == 5) =
      { released := [], chipClosed := true, raised := some 5 } ∧
    (6 ∈ (Gpio.close [5, 6] (fun p => p == 5)).released) = False ∧
    (Gpio.close [5, 6] (fun p => p == 5)).raised ≠ none := by
  refine ⟨rfl, ?_, by decide⟩
  simp [Gpio.close, releaseAll]

lemma releaseAll_ok (f : Nat → Bool) :
    ∀ pins : List Nat, (∀ p ∈ pins, f p = false) →
      releaseAll pins f = (pins, none) := by
  intro pins
  induction pins with
  | nil => intro _; rfl
  | cons p rest ih =>
      intro h
      have hp : f p = false := h p (List.mem_cons_self p rest)
      have hrest := ih (fun q hq => h q (List.mem_cons_of_mem p hq))
      simp [releaseAll, hp, hrest]

lemma releaseAll_fail (f : Nat → Bool) :
    ∀ (l : List Nat) (p : Nat) (r : List Nat),
      (∀ q ∈ l, f q = false) → f p = true →
      releaseAll (l ++ p :: r) f = (l, some p) := by
  intro l
  induction l with
  | nil =>
      intro p r _ hp
      simp [releaseAll, hp]
  | cons q rest ih =>
      intro p r hok hp
      have hq : f q = false := hok q (List.mem_cons_self q rest)
      have := ih p r (fun x hx => hok x (List.mem_cons_of_mem q hx)) hp
      simp [releaseAll, hq, this]

/-- C6 amended: `close()` always closes the chip handle (the `finally`);
when every release succeeds, all pins are released and nothing is raised;
but the first failing release aborts the loop — exactly the preceding pins
are released, the pins after the failing one are abandoned, and the
exception propagates out of `close` (it is not swallowed). -/
theorem c6_amended_close_best_effort_only_for_chip
    (pins : List Nat) (f : Nat → Bool) :
    (Gpio.close pins f).chipClosed = true ∧
    ((∀ p ∈ pins, f p = false) →
      Gpio.close pins f = { released := pins, chipClosed := true, raised := none }) ∧
    (∀ (l : List Nat) (p : Nat) (r : List Nat), pins = l ++ p :: r →
      (∀ q ∈ l, f q = false) → f p = true →
      Gpio.close pins f = { released := l, chipClosed := true, raised := some p }) := by
  refine ⟨rfl, ?_, ?_⟩
  · intro h
    simp [Gpio.close, releaseAll_ok f pins h]
  · intro l p r hsplit hok hp
    subst hsplit
    simp [Gpio.close, releaseAll_fail f l p r hok hp]

/-- Witness for C6 amended: all-succeed on pins [5,6], and failure at pin 6
after a successful release of pin 5. -/
theorem c6_amended_close_witness :
    (Gpio.close [5, 6] (fun p => p == 6)).chipClosed = true ∧
    Gpio.close [5, 6] (fun _ => false) =
      { released := [5, 6], chipClosed := true, raised := none } ∧
    Gpio.close [5, 6] (fun p => p == 6) =
      { released := [5], chipClosed := true, raised := some 6 } := by
  refine ⟨(c6_amended_close_best_effort_only_for_chip [5, 6] (fun p => p == 6)).1,
    (c6_amended_close_best_effort_only_for_chip [5, 6] (fun _ => false)).2.1
      (by intro p _; rfl),
    (c6_amended_close_best_effort_only_for_chip [5, 6] (fun p => p == 6)).2.2
      [5] 6 [] rfl (by decide) (by decide)⟩

/- ============ Effect library (hardware-available path) ============ -/

/-- Hardware actions emitted by effect code, in program order:
`setBuzzer v` is `gpio.set_level(buzzer_pin, v)`, `setColor r g b` is
`set_rgb_color(r, g, b)` (the raw arguments; clamping happens when the
action is applied to the duty state, as in `set_duty`), `sleep dt` is
`await asyncio.sleep(dt)`. -/
inductive Act where
  | setBuzzer (v : Nat)
  | setColor (r g b : ℚ)
  | sleep (dt : ℚ)
  deriving DecidableEq, Repr

/-- The sampled-effect loop shared by the critical/high/medium effects:
`while now < end_time: t = now - start; set_rgb_color(f t); await
asyncio.sleep(dt)`, under the idealised clock where each sleep advances
the event-loop time by exactly `dt`. -/
def effectLoop (f : ℚ → ℚ × ℚ × ℚ) (duration dt : ℚ) (hdt : 0 < dt)
    (t : ℚ) : List Act :=
  if _h : t < duration then
    Act.setColor (f t).1 (f t).2.1 (f t).2.2 :: Act.sleep dt ::
      effectLoop f duration dt hdt (t + dt)
  else []
termination_by (⌈(duration - t) / dt⌉).toNat
decreasing_by
  have hx : 0 < (duration - t) / dt := div_pos (by linarith) hdt
  have h1 : 0 < ⌈(duration - t) / dt⌉ := Int.ceil_pos.mpr hx
  have h2 : ⌈(duration - (t + dt)) / dt⌉ = ⌈(duration - t) / dt⌉ - 1 := by
    rw [show duration - (t + dt) = (duration - t) - dt by ring, sub_div,
      div_self (ne_of_gt hdt)]
    exact_mod_cast Int.ceil_sub_one ((duration - t) / dt)
  rw [h2]
  omega

/-- Color law of `_critical_alert`'s loop body: `intensity =
0.5 + 0.5 * math.sin(2 * math.pi * pulse_freq * t)` with `pulse_freq =
5.0`, color `(intensity, 0.0, 0.0)`.  `msin`/`mpi` stand for `math.sin`
and `math.pi`. -/
def criticalColor (msin : ℚ → ℚ) (mpi : ℚ) (t : ℚ) : ℚ × ℚ × ℚ :=
  (1/2 + 1/2 * msin (2 * mpi * 5 * t), 0, 0)

/-- `HardwareController._critical_alert`: continuous buzzer on, pulsing
red sampled every 20 ms for 10 s, then buzzer off and `rgb_off()`. -/
def criticalAlert (msin : ℚ → ℚ) (mpi : ℚ) : List Act :=
  Act.setBuzzer 1 ::
    (effectLoop (criticalColor msin mpi) 10 (1/50) (by norm_num) 0 ++
      [Act.setBuzzer 0, Act.setColor 0 0 0])

/-- `HardwareController.async_beep(duration, pause, times)`: per beep,
buzzer on, sleep `duration`, buzzer off, and (`if i < times - 1`) sleep
`pause` between beeps. -/
def async_beep (duration pause : ℚ) (times : Nat) : List Act :=
  (List.range times).flatMap (fun i =>
    [Act.setBuzzer 1, Act.sleep duration, Act.setBuzzer 0] ++
      if i < times - 1 then [Act.sleep pause] else [])

/-- Color law of `_high_alert`'s breathing loop: `intensity = 0.2 + 0.8 *
(0.5 + 0.5 * math.sin(2 * math.pi * breathe_freq * t))` with
`breathe_freq = 1.0`, color `(intensity, intensity * 0.5, 0.0)`. -/
def highColor (msin : ℚ → ℚ) (mpi : ℚ) (t : ℚ) : ℚ × ℚ × ℚ :=
  (1/5 + 4/5 * (1/2 + 1/2 * msin (2 * mpi * 1 * t)),
   (1/5 + 4/5 * (1/2 + 1/2 * msin (2 * mpi * 1 * t))) * (1/2), 0)

/-- `HardwareController._high_alert`: 3 beeps (0.15 s on / 0.15 s off),
a 0.5 s pause, orange breathing sampled every 20 ms for 5 s, `rgb_off()`. -/
def highAlert (msin : ℚ → ℚ) (mpi : ℚ) : List Act :=
  async_beep (3/20) (3/20) 3 ++ [Act.sleep (1/2)] ++
    effectLoop (highColor msin mpi) 5 (1/50) (by norm_num) 0 ++
    [Act.setColor 0 0 0]

/-- Color law of `_medium_alert`'s fade loop: `intensity = 0.1 + 0.7 *
(0.5 + 0.5 * math.sin(2 * math.pi * fade_freq * t))` with `fade_freq =
0.5`, color `(0.0, 0.0, intensity)`. -/
def mediumColor (msin : ℚ → ℚ) (mpi : ℚ) (t : ℚ) : ℚ × ℚ × ℚ :=
  (0, 0, 1/10 + 7/10 * (1/2 + 1/2 * msin (2 * mpi * (1/2) * t)))

/-- `HardwareController._medium_alert`: slow blue fade sampled every 50 ms
for 5 s, no buzzer, then `rgb_off()`. -/
def mediumAlert (msin : ℚ → ℚ) (mpi : ℚ) : List Act :=
  effectLoop (mediumColor msin mpi) 5 (1/20) (by norm_num) 0 ++
    [Act.setColor 0 0 0]

/-- `HardwareController._low_alert`: steady soft green for 2 s, no buzzer,
then `rgb_off()`. -/
def lowAlert : List Act :=
  [Act.setColor 0 (3/5) 0, Act.sleep 2, Act.setColor 0 0 0]

/-- The severity dispatch in `_execute_alert`: the `if/elif` chain over
"critical"/"high"/"medium"/"low"; any other severity matches no branch
and performs no actuation. -/
def effectFor (msin : ℚ → ℚ) (mpi : ℚ) (severity : String) : List Act :=
  if severity = "critical" then criticalAlert msin mpi
  else if severity = "high" then highAlert msin mpi
  else if severity = "medium" then mediumAlert msin mpi
  else if severity = "low" then lowAlert
  else []

/- ================= C8 ================= -/

lemma effectLoop_eq_flatMap_aux (f : ℚ → ℚ × ℚ × ℚ) (duration dt t0 : ℚ)
    (hdt : 0 < dt) :
    ∀ (n s : Nat), (∀ k : Nat, s ≤ k → k < s + n → t0 + k * dt < duration) →
      duration ≤ t0 + (s + n : Nat) * dt →
      effectLoop f duration dt hdt (t0 + s * dt) =
        (List.range' s n).flatMap (fun k =>
          [Act.setColor (f (t0 + k * dt)).1 (f (t0 + k * dt)).2.1
            (f (t0 + k * dt)).2.2, Act.sleep dt]) := by
  intro n
  induction n with
  | zero =>
      intro s _ hend
      have hend' : duration ≤ t0 + (s : ℚ) * dt := by
        have : ((s + 0 : Nat) : ℚ) = (s : ℚ) := by norm_num
        rwa [this] at hend
      unfold effectLoop
      rw [dif_neg (not_lt.mpr hend')]
      simp
  | succ n ih =>
      intro s hlt hend
      have h0 : t0 + (s : ℚ) * dt < duration :=
        hlt s (le_refl s) (by omega)
      unfold effectLoop
      rw [dif_pos h0]
      have hstep : (t0 + (s : ℚ) * dt) + dt = t0 + ((s + 1 : Nat) : ℚ) * dt := by
        push_cast; ring
      have hcnt : ((s + 1) + n : Nat) = (s + (n + 1) : Nat) := by omega
      have ihyp := ih (s + 1)
        (fun k hk1 hk2 => hlt k (by omega) (by omega))
        (by rw [hcnt]; exact hend)
      rw [hstep, ihyp, List.range'_succ]
      rw [List.flatMap_cons]
      rfl

lemma effectLoop_eq_flatMap (f : ℚ → ℚ × ℚ × ℚ) (duration dt : ℚ)
    (hdt : 0 < dt) (n : Nat)
    (hlt : ∀ k : Nat, k < n → (k : ℚ) * dt < duration)
    (hend : duration ≤ (n : Nat) * dt) :
    effectLoop f duration dt hdt 0 =
      (List.range n).flatMap (fun k =>
        [Act.setColor (f ((k : ℚ) * dt)).1 (f ((k : ℚ) * dt)).2.1
          (f ((k : ℚ) * dt)).2.2, Act.sleep dt]) := by
  have h := effectLoop_eq_flatMap_aux f duration dt 0 hdt n 0
    (fun k _ hk => by simpa using hlt k (by omega))
    (by simpa using hend)
  simp only [Nat.cast_zero, zero_mul, add_zero, zero_add] at h
  rw [h, List.range_eq_range']

/-- Extracting the sleep durations of an action list. -/
def sleepTime : Act → Option ℚ
  | .sleep dt => some dt
  | _ => none

lemma flatMap_sample_sleeps (r g b : Nat → ℚ) (dt : ℚ) (l : List Nat) :
    ((l.flatMap (fun k =>
        [Act.setColor (r k) (g k) (b k), Act.sleep dt])).filterMap
      sleepTime) = l.map (fun _ => dt) := by
  induction l with
  | nil => rfl
  | cons k rest ih => simp [List.flatMap_cons, List.filterMap_append, sleepTime, ih]

lemma sum_map_const_q (c : ℚ) (l : List Nat) :
    (l.map (fun _ => c)).sum = l.length * c := by
  induction l with
  | nil => simp
  | cons a t ih =>
      simp only [List.map_cons, List.sum_cons, ih, List.length_cons]
      push_cast
      ring

/-- C8: the critical effect turns the buzzer on first and does not touch
it again until after the sampling loop (held on for the whole effect),
samples the color every 20 ms at elapsed times t = k/50 for k < 500 with
red = 0.5 + 0.5·sin(2π·5·t) and green = blue = 0, the sampled phase lasts
exactly 10 s of sleeps, and the effect ends by turning the buzzer off and
restoring the color to (0,0,0). -/
lemma criticalAlert_eq (msin : ℚ → ℚ) (mpi : ℚ) :
    criticalAlert msin mpi =
      Act.setBuzzer 1 ::
        ((List.range 500).flatMap (fun k =>
          [Act.setColor (1/2 + 1/2 * msin (2 * mpi * 5 * ((k : ℚ) / 50))) 0 0,
           Act.sleep (1/50)]) ++
         [Act.setBuzzer 0, Act.setColor 0 0 0]) := by
  have hblock : (fun k : Nat =>
      [Act.setColor (criticalColor msin mpi ((k : ℚ) * (1/50))).1
        (criticalColor msin mpi ((k : ℚ) * (1/50))).2.1
        (criticalColor msin mpi ((k : ℚ) * (1/50))).2.2, Act.sleep (1/50)]) =
      (fun k : Nat =>
        [Act.setColor (1/2 + 1/2 * msin (2 * mpi * 5 * ((k : ℚ) / 50))) 0 0,
         Act.sleep (1/50)]) := by
    funext k
    have harg : (k : ℚ) * (1/50) = (k : ℚ) / 50 := by ring
    simp only [criticalColor, harg]
  unfold criticalAlert
  have hloop := effectLoop_eq_flatMap (criticalColor msin mpi) 10 (1/50)
    (by norm_num) 500
    (fun k hk => by
      have hk' : (k : ℚ) < 500 := by exact_mod_cast hk
      linarith)
    (by norm_num)
  rw [hloop, hblock]

theorem c8_critical_effect (msin : ℚ → ℚ) (mpi : ℚ) :
    criticalAlert msin mpi =
      Act.setBuzzer 1 ::
        ((List.range 500).flatMap (fun k =>
          [Act.setColor (1/2 + 1/2 * msin (2 * mpi * 5 * ((k : ℚ) / 50))) 0 0,
           Act.sleep (1/50)]) ++
         [Act.setBuzzer 0, Act.setColor 0 0 0]) ∧
    (∀ a ∈ (List.range 500).flatMap (fun k =>
          [Act.setColor (1/2 + 1/2 * msin (2 * mpi * 5 * ((k : ℚ) / 50))) 0 0,
           Act.sleep (1/50)]), ∀ v, a ≠ Act.setBuzzer v) ∧
    (((List.range 500).flatMap (fun k =>
          [Act.setColor (1/2 + 1/2 * msin (2 * mpi * 5 * ((k : ℚ) / 50))) 0 0,
           Act.sleep (1/50)])).filterMap sleepTime).sum = 10 := by
  refine ⟨criticalAlert_eq msin mpi, ?_, ?_⟩
  · intro a ha v
    simp only [List.mem_flatMap, List.mem_cons] at ha
    obtain ⟨k, -, hk⟩ := ha
    rcases hk with h | h | h
    · subst h; intro h'; cases h'
    · subst h; intro h'; cases h'
    · cases h
  · rw [flatMap_sample_sleeps
      (fun k => 1/2 + 1/2 * msin (2 * mpi * 5 * ((k : ℚ) / 50)))
      (fun _ => 0) (fun _ => 0) (1/50) (List.range 500)]
    rw [sum_map_const_q]
    simp only [List.length_range]
    norm_num

/- ============ Alert sequencer (`_execute_alert`, `_process_alert_queue`) ============ -/

/-- The fields of the queued alert dict that `_execute_alert` reads. -/
structure AlertData where
  alert_id : String
  severity : String
  deriving DecidableEq, Repr

/-- Observable events of `_execute_alert`, in program order: its log
lines, its writes to `self.is_active`, and the hardware actions of the
running effect. -/
inductive Event where
  | logExecuting (id sev : String)
  | setActive (b : Bool)
  | act (a : Act)
  | logError (id : String)
  | logCompleted (id : String)
  deriving DecidableEq, Repr

/-- The events produced inside `_execute_alert`'s `try`/`except`:
`fault = none` means the severity's effect ran to completion;
`fault = some n` means the effect raised after `n` of its actions had
executed — the remaining actions (including any restore-to-off steps at
the effect's end) do not run, and the `except` arm logs the error. -/
def effMid (msin : ℚ → ℚ) (mpi : ℚ) (a : AlertData)
    (fault : Option Nat) : List Event :=
  match fault with
  | none => (effectFor msin mpi a.severity).map Event.act
  | some n => ((effectFor msin mpi a.severity).take n).map Event.act ++
      [Event.logError a.alert_id]

/-- `_execute_alert(alert_data)` in program order: log "Executing alert",
`self.is_active = True`, the `try`/`except` body (`effMid`), then the
`finally`: `self.is_active = False` and the "completed" log line. -/
def executeAlert (msin : ℚ → ℚ) (mpi : ℚ) (a : AlertData)
    (fault : Option Nat) : List Event :=
  Event.logExecuting a.alert_id a.severity :: Event.setActive true ::
    (effMid msin mpi a fault ++
      [Event.setActive false, Event.logCompleted a.alert_id])

/-- `_process_alert_queue`: the single consumer loop, dequeuing and fully
executing one alert at a time in FIFO order.  Each queue element carries
the fault (if any) its effect will hit; `_execute_alert` itself never
raises (it catches effect exceptions), so the consumer's own `except` arm
adds no events. -/
def processQueue (msin : ℚ → ℚ) (mpi : ℚ)
    (alerts : List (AlertData × Option Nat)) : List Event :=
  alerts.flatMap (fun pr => executeAlert msin mpi pr.1 pr.2)

/-- How one event updates `is_active`. -/
def stepActive (b : Bool) (e : Event) : Bool :=
  match e with
  | .setActive v => v
  | _ => b

/-- The value of `is_active` after a sequence of events, starting from
`b`. -/
def activeFrom (b : Bool) (es : List Event) : Bool :=
  es.foldl stepActive b

/-- The value of `is_active` after a sequence of events; it is `False`
at controller construction. -/
def activeAfter (es : List Event) : Bool :=
  activeFrom false es

/-- Recognizer for the "Executing alert" log event that opens an alert
execution. -/
def isExecLog : Event → Bool
  | .logExecuting _ _ => true
  | _ => false

/-- Recognizer for the "completed" log event that closes an alert
execution. -/
def isComplLog : Event → Bool
  | .logCompleted _ => true
  | _ => false

/-- Number of alert executions opened in an event sequence. -/
def execCount (es : List Event) : Nat := es.countP isExecLog

/-- Number of alert executions completed in an event sequence. -/
def complCount (es : List Event) : Nat := es.countP isComplLog

/-- Events that neither touch `is_active` nor open/close an execution
(hardware actions and the error log line). -/
def isNeutral : Event → Bool
  | .act _ => true
  | .logError _ => true
  | _ => false

lemma activeFrom_append (b : Bool) (xs ys : List Event) :
    activeFrom b (xs ++ ys) = activeFrom (activeFrom b xs) ys :=
  List.foldl_append stepActive b xs ys

lemma neutral_elim (e : Event) (h : isNeutral e = true) :
    isExecLog e = false ∧ isComplLog e = false ∧ ∀ b, stepActive b e = b := by
  cases e <;> simp [isNeutral, isExecLog, isComplLog, stepActive] at h ⊢

lemma neutral_counts (es : List Event) (h : ∀ e ∈ es, isNeutral e = true) :
    execCount es = 0 ∧ complCount es = 0 ∧ ∀ b, activeFrom b es = b := by
  induction es with
  | nil => exact ⟨rfl, rfl, fun _ => rfl⟩
  | cons e rest ih =>
      have he := neutral_elim e (h e (List.mem_cons_self e rest))
      have hrest := ih (fun x hx => h x (List.mem_cons_of_mem e hx))
      refine ⟨?_, ?_, ?_⟩
      · have h1 : rest.countP isExecLog = 0 := hrest.1
        show (e :: rest).countP isExecLog = 0
        rw [List.countP_cons, he.1, h1]
        simp
      · have h1 : rest.countP isComplLog = 0 := hrest.2.1
        show (e :: rest).countP isComplLog = 0
        rw [List.countP_cons, he.2.1, h1]
        simp
      · intro b
        show activeFrom (stepActive b e) rest = b
        rw [he.2.2 b]
        exact hrest.2.2 b

lemma effMid_neutral (msin : ℚ → ℚ) (mpi : ℚ) (a : AlertData)
    (fault : Option Nat) :
    ∀ e ∈ effMid msin mpi a fault, isNeutral e = true := by
  intro e he
  cases fault with
  | none =>
      simp only [effMid, List.mem_map] at he
      obtain ⟨x, -, rfl⟩ := he
      rfl
  | some n =>
      simp only [effMid, List.mem_append, List.mem_map, List.mem_singleton] at he
      rcases he with ⟨x, -, rfl⟩ | rfl <;> rfl

lemma block_activeFrom (msin : ℚ → ℚ) (mpi : ℚ) (a : AlertData)
    (fault : Option Nat) (b : Bool) :
    activeFrom b (executeAlert msin mpi a fault) = false := by
  unfold executeAlert
  show activeFrom true (effMid msin mpi a fault ++
    [Event.setActive false, Event.logCompleted a.alert_id]) = false
  rw [activeFrom_append,
    (neutral_counts _ (effMid_neutral msin mpi a fault)).2.2 true]
  rfl

lemma block_execCount (msin : ℚ → ℚ) (mpi : ℚ) (a : AlertData)
    (fault : Option Nat) :
    execCount (executeAlert msin mpi a fault) = 1 := by
  have h1 : (effMid msin mpi a fault).countP isExecLog = 0 :=
    (neutral_counts _ (effMid_neutral msin mpi a fault)).1
  unfold executeAlert
  show List.countP isExecLog _ = 1
  simp [List.countP_cons, List.countP_append, h1, isExecLog]

lemma block_complCount (msin : ℚ → ℚ) (mpi : ℚ) (a : AlertData)
    (fault : Option Nat) :
    complCount (executeAlert msin mpi a fault) = 1 := by
  have h1 : (effMid msin mpi a fault).countP isComplLog = 0 :=
    (neutral_counts _ (effMid_neutral msin mpi a fault)).2.1
  unfold executeAlert
  show List.countP isComplLog _ = 1
  simp [List.countP_cons, List.countP_append, h1, isComplLog]

lemma counts_open_prefix (id sev : String) (es : List Event)
    (h : ∀ e ∈ es, isNeutral e = true) :
    execCount (Event.logExecuting id sev :: Event.setActive true :: es) = 1 ∧
    complCount (Event.logExecuting id sev :: Event.setActive true :: es) = 0 ∧
    activeAfter (Event.logExecuting id sev :: Event.setActive true :: es) = true := by
  obtain ⟨h1, h2, h3⟩ := neutral_counts es h
  have h1' : es.countP isExecLog = 0 := h1
  have h2' : es.countP isComplLog = 0 := h2
  refine ⟨?_, ?_, ?_⟩
  · show List.countP isExecLog _ = 1
    simp [List.countP_cons, isExecLog, h1']
  · show List.countP isComplLog _ = 0
    simp [List.countP_cons, isComplLog, h2']
  · show activeFrom true es = true
    exact h3 true

lemma concat_last_ne (xs ys : List Event) (x y : Event) (hxy : x ≠ y) :
    xs ++ [x] ≠ ys ++ [y] := by
  intro h
  have hg := congrArg List.getLast? h
  rw [List.getLast?_concat, List.getLast?_concat] at hg
  exact hxy (Option.some.inj hg)

/-- Prefix invariant of a single execution block
`logExecuting :: setActive true :: (mid ++ [setActive false, logCompleted])`
with a neutral middle: counts of opened/completed executions along every
prefix, `is_active` true only strictly inside the execution, and every
hardware action happening while `is_active` is true. -/
lemma open_close_prefix_inv (id sev : String) (mid : List Event)
    (hmid : ∀ e ∈ mid, isNeutral e = true) :
    ∀ p q : List Event,
      Event.logExecuting id sev :: Event.setActive true ::
        (mid ++ [Event.setActive false, Event.logCompleted id]) = p ++ q →
      complCount p ≤ execCount p ∧ execCount p ≤ complCount p + 1 ∧
      (activeAfter p = true → execCount p = complCount p + 1) ∧
      (∀ p0 e, p = p0 ++ [Event.act e] → activeAfter p = true) := by
  obtain ⟨hm1, hm2, hm3⟩ := neutral_counts mid hmid
  have hm1' : mid.countP isExecLog = 0 := hm1
  have hm2' : mid.countP isComplLog = 0 := hm2
  intro p q hpq
  cases p with
  | nil =>
      refine ⟨le_refl 0, by simp [execCount, complCount], ?_, ?_⟩
      · intro h
        exact absurd h (by simp [activeAfter, activeFrom])
      · intro p0 e h
        exact absurd h (by simp)
  | cons e1 p1 =>
      rw [List.cons_append] at hpq
      obtain ⟨he1, hrest⟩ := List.cons.inj hpq
      subst he1
      cases p1 with
      | nil =>
          refine ⟨by simp [execCount, complCount, List.countP_cons, isComplLog],
            by simp [execCount, complCount, List.countP_cons, isExecLog, isComplLog],
            ?_, ?_⟩
          · intro h
            exact absurd h (by simp [activeAfter, activeFrom, stepActive])
          · intro p0 e h
            have hform : [Event.logExecuting id sev] =
                ([] : List Event) ++ [Event.logExecuting id sev] := by simp
            exact absurd (hform.symm.trans h)
              (concat_last_ne _ _ _ _ (by simp))
      | cons e2 p2 =>
          rw [List.cons_append] at hrest
          obtain ⟨he2, hmidq⟩ := List.cons.inj hrest
          subst he2
          rcases List.append_eq_append_iff.mp hmidq with ⟨w, hp2, hsfx⟩ | ⟨w, hmid2, hq⟩
          · -- p2 = mid ++ w, where w is a front part of [setActive false, logCompleted]
            subst hp2
            cases w with
            | nil =>
                rw [List.append_nil]
                obtain ⟨c1, c2, c3⟩ := counts_open_prefix id sev mid hmid
                exact ⟨by rw [c1, c2]; omega, by rw [c1, c2], fun _ => by rw [c1, c2],
                  fun _ _ _ => c3⟩
            | cons x w1 =>
                obtain ⟨hx, hlast⟩ := List.cons.inj hsfx
                subst hx
                cases w1 with
                | nil =>
                    refine ⟨?_, ?_, ?_, ?_⟩
                    · show List.countP isComplLog _ ≤ List.countP isExecLog _
                      simp [List.countP_cons, List.countP_append, isExecLog,
                        isComplLog, hm1', hm2']
                    · show List.countP isExecLog _ ≤ List.countP isComplLog _ + 1
                      simp [List.countP_cons, List.countP_append, isExecLog,
                        isComplLog, hm1', hm2']
                    · intro h
                      exfalso
                      have : activeAfter (Event.logExecuting id sev ::
                          Event.setActive true :: (mid ++ [Event.setActive false])) =
                          false := by
                        show activeFrom true (mid ++ [Event.setActive false]) = false
                        rw [activeFrom_append, hm3 true]
                        rfl
                      rw [this] at h
                      cases h
                    · intro p0 e h
                      have hform : Event.logExecuting id sev :: Event.setActive true ::
                          (mid ++ [Event.setActive false]) =
                          (Event.logExecuting id sev :: Event.setActive true :: mid) ++
                            [Event.setActive false] := by simp
                      exact absurd (hform.symm.trans h)
                        (concat_last_ne _ _ _ _ (by simp))
                | cons y w2 =>
                    obtain ⟨hy, hnil⟩ := List.cons.inj hlast
                    subst hy
                    have hw2 : w2 = [] := by
                      cases w2 with
                      | nil => rfl
                      | cons z w3 => simp at hnil
                    subst hw2
                    refine ⟨?_, ?_, ?_, ?_⟩
                    · show List.countP isComplLog _ ≤ List.countP isExecLog _
                      simp [List.countP_cons, List.countP_append, isExecLog,
                        isComplLog, hm1', hm2']
                    · show List.countP isExecLog _ ≤ List.countP isComplLog _ + 1
                      simp [List.countP_cons, List.countP_append, isExecLog,
                        isComplLog, hm1', hm2']
                    · intro h
                      exfalso
                      have : activeAfter (Event.logExecuting id sev ::
                          Event.setActive true ::
                          (mid ++ [Event.setActive false, Event.logCompleted id])) =
                          false := by
                        show activeFrom true
                          (mid ++ [Event.setActive false, Event.logCompleted id]) = false
                        rw [activeFrom_append, hm3 true]
                        rfl
                      rw [this] at h
                      cases h
                    · intro p0 e h
                      have hform : Event.logExecuting id sev :: Event.setActive true ::
                          (mid ++ [Event.setActive false, Event.logCompleted id]) =
                          (Event.logExecuting id sev :: Event.setActive true ::
                            (mid ++ [Event.setActive false])) ++
                            [Event.logCompleted id] := by simp
                      exact absurd (hform.symm.trans h)
                        (concat_last_ne _ _ _ _ (by simp))
          · -- mid = p2 ++ w: the prefix ends strictly inside the effect body
            have hneut : ∀ e ∈ p2, isNeutral e = true := by
              intro e he
              exact hmid e (by rw [hmid2]; exact List.mem_append_left w he)
            obtain ⟨c1, c2, c3⟩ := counts_open_prefix id sev p2 hneut
            exact ⟨by rw [c1, c2]; omega, by rw [c1, c2], fun _ => by rw [c1, c2],
              fun _ _ _ => c3⟩

lemma block_prefix_inv (msin : ℚ → ℚ) (mpi : ℚ) (a : AlertData)
    (fault : Option Nat) :
    ∀ p q : List Event, executeAlert msin mpi a fault = p ++ q →
      complCount p ≤ execCount p ∧ execCount p ≤ complCount p + 1 ∧
      (activeAfter p = true → execCount p = complCount p + 1) ∧
      (∀ p0 e, p = p0 ++ [Event.act e] → activeAfter p = true) :=
  open_close_prefix_inv a.alert_id a.severity (effMid msin mpi a fault)
    (effMid_neutral msin mpi a fault)

lemma processQueue_cons (msin : ℚ → ℚ) (mpi : ℚ) (a : AlertData)
    (f : Option Nat) (rest : List (AlertData × Option Nat)) :
    processQueue msin mpi ((a, f) :: rest) =
      executeAlert msin mpi a f ++ processQueue msin mpi rest := by
  simp [processQueue]

lemma queue_activeAfter (msin : ℚ → ℚ) (mpi : ℚ) :
    ∀ alerts, activeAfter (processQueue msin mpi alerts) = false := by
  intro alerts
  induction alerts with
  | nil => rfl
  | cons hd rest ih =>
      obtain ⟨a, f⟩ := hd
      rw [processQueue_cons]
      show activeFrom false (_ ++ _) = false
      rw [activeFrom_append, block_activeFrom]
      exact ih

lemma queue_prefix_inv (msin : ℚ → ℚ) (mpi : ℚ) :
    ∀ (alerts : List (AlertData × Option Nat)) (p q : List Event),
      processQueue msin mpi alerts = p ++ q →
      complCount p ≤ execCount p ∧ execCount p ≤ complCount p + 1 ∧
      (activeAfter p = true → execCount p = complCount p + 1) ∧
      (∀ p0 e, p = p0 ++ [Event.act e] → activeAfter p = true) := by
  intro alerts
  induction alerts with
  | nil =>
      intro p q hpq
      have hp : p = [] := by
        have h : p ++ q = [] := hpq.symm
        exact (List.append_eq_nil.mp h).1
      subst hp
      refine ⟨le_refl 0, by simp [execCount, complCount], ?_, ?_⟩
      · intro h
        exact absurd h (by simp [activeAfter, activeFrom])
      · intro p0 e h
        exact absurd h (by simp)
  | cons hd rest ih =>
      intro p q hpq
      obtain ⟨a, f⟩ := hd
      rw [processQueue_cons] at hpq
      rcases List.append_eq_append_iff.mp hpq with ⟨w, hp, hw⟩ | ⟨w, hblk, hq⟩
      · -- the prefix p covers the whole first block plus a prefix w of the rest
        subst hp
        obtain ⟨i1, i2, i3, i4⟩ := ih w q hw
        have hbe : List.countP isExecLog (executeAlert msin mpi a f) = 1 :=
          block_execCount msin mpi a f
        have hbc : List.countP isComplLog (executeAlert msin mpi a f) = 1 :=
          block_complCount msin mpi a f
        have hee : execCount (executeAlert msin mpi a f ++ w) = 1 + execCount w := by
          show List.countP isExecLog _ = _
          rw [List.countP_append, hbe]
          rfl
        have hce : complCount (executeAlert msin mpi a f ++ w) = 1 + complCount w := by
          show List.countP isComplLog _ = _
          rw [List.countP_append, hbc]
          rfl
        have hact : activeAfter (executeAlert msin mpi a f ++ w) = activeAfter w := by
          show activeFrom false (_ ++ _) = _
          rw [activeFrom_append, block_activeFrom]
          rfl
        refine ⟨?_, ?_, ?_, ?_⟩
        · rw [hce, hee]; omega
        · rw [hce, hee]; omega
        · intro h
          rw [hact] at h
          rw [hce, hee, i3 h]
          omega
        · intro p0 e h
          rcases List.eq_nil_or_concat w with hw0 | ⟨w0, x, hwx⟩
          · subst hw0
            rw [List.append_nil] at h hact
            have hform : executeAlert msin mpi a f =
                (Event.logExecuting a.alert_id a.severity ::
                  Event.setActive true ::
                  (effMid msin mpi a f ++ [Event.setActive false])) ++
                  [Event.logCompleted a.alert_id] := by
              simp [executeAlert]
            exact absurd (hform.symm.trans h) (concat_last_ne _ _ _ _ (by simp))
          · rw [List.concat_eq_append] at hwx
            subst hwx
            have hform : executeAlert msin mpi a f ++ (w0 ++ [x]) =
                (executeAlert msin mpi a f ++ w0) ++ [x] := by
              simp [List.append_assoc]
            have h2 := hform.symm.trans h
            have hx := congrArg List.getLast? h2
            rw [List.getLast?_concat, List.getLast?_concat] at hx
            have hx' : x = Event.act e := Option.some.inj hx
            subst hx'
            rw [hact]
            exact i4 w0 e rfl
      · -- the prefix p lies inside the first block
        exact block_prefix_inv msin mpi a f p w hblk

/-- C1: single-flight invariant of the sequencer.  `is_active` is false
before any alert and false again once the queue drains; along every
prefix of the consumer's event trace, the number of alert executions in
flight (`execCount − complCount`) never exceeds 1 (never two effects at
once); whenever `is_active` reads true exactly one execution is in
flight; and every hardware action of an effect happens while `is_active`
is true (it is true for the effect's entire duration). -/
theorem c1_single_flight (msin : ℚ → ℚ) (mpi : ℚ)
    (alerts : List (AlertData × Option Nat)) :
    activeAfter [] = false ∧
    activeAfter (processQueue msin mpi alerts) = false ∧
    (∀ p q, processQueue msin mpi alerts = p ++ q →
      complCount p ≤ execCount p ∧ execCount p ≤ complCount p + 1 ∧
      (activeAfter p = true → execCount p = complCount p + 1) ∧
      (∀ p0 e, p = p0 ++ [Event.act e] → activeAfter p = true)) :=
  ⟨rfl, queue_activeAfter msin mpi alerts, queue_prefix_inv msin mpi alerts⟩

/-- Witness for C1 on a concrete queue holding one low-severity alert,
split after the effect's first hardware action. -/
theorem c1_single_flight_witness :
    activeAfter (processQueue (fun _ => 0) 0 [(⟨"a1", "low"⟩, none)]) = false ∧
    complCount [Event.logExecuting "a1" "low", Event.setActive true,
        Event.act (Act.setColor 0 (3/5) 0)] ≤
      execCount [Event.logExecuting "a1" "low", Event.setActive true,
        Event.act (Act.setColor 0 (3/5) 0)] ∧
    activeAfter [Event.logExecuting "a1" "low", Event.setActive true,
      Event.act (Act.setColor 0 (3/5) 0)] = true := by
  have h := c1_single_flight (fun _ => 0) 0 [(⟨"a1", "low"⟩, none)]
  have hsplit : processQueue (fun _ => 0) 0 [(⟨"a1", "low"⟩, none)] =
      [Event.logExecuting "a1" "low", Event.setActive true,
        Event.act (Act.setColor 0 (3/5) 0)] ++
      [Event.act (Act.sleep 2), Event.act (Act.setColor 0 0 0),
        Event.setActive false, Event.logCompleted "a1"] := rfl
  refine ⟨h.2.1, (h.2.2 _ _ hsplit).1, ?_⟩
  exact (h.2.2 _ _ hsplit).2.2.2
    [Event.logExecuting "a1" "low", Event.setActive true]
    (Act.setColor 0 (3/5) 0) rfl

/- ================= C7 ================= -/

/-- The kind of an observable event, forgetting its payload — used to
compare which kinds of log/state events different severities produce. -/
inductive EventKind where
  | executing
  | active
  | action
  | error
  | completed
  deriving DecidableEq, Repr

/-- Kind of an event. -/
def kindOf : Event → EventKind
  | .logExecuting _ _ => .executing
  | .setActive _ => .active
  | .act _ => .action
  | .logError _ => .error
  | .logCompleted _ => .completed

/-- C7 counterexample: executing an alert with the unrecognized severity
"weird" performs no actuation and completes, but the severity is NOT
logged as a distinct condition: the trace is only the generic
"Executing alert"/"completed" lines around the `is_active` writes, and
every event kind it emits also occurs in a recognized-severity ("low")
execution — no event distinguishes the unknown severity. -/
theorem c7_unknown_severity_not_distinctly_logged :
    executeAlert (fun _ => 0) 0 ⟨"a1", "weird"⟩ none =
      [Event.logExecuting "a1" "weird", Event.setActive true,
       Event.setActive false, Event.logCompleted "a1"] ∧
    (∀ e ∈ executeAlert (fun _ => 0) 0 ⟨"a1", "weird"⟩ none,
      kindOf e ∈ (executeAlert (fun _ => 0) 0 ⟨"a2", "low"⟩ none).map kindOf) := by
  constructor
  · rfl
  · decide

/-- C7 amended: executing an alert whose severity is not one of
critical/high/medium/low performs no actuation (the dispatch selects no
effect), completes successfully — the trace is exactly the generic
executing/active/completed skeleton, with no hardware action, no error
log, and `is_active` back to false — but the unrecognized severity is not
logged as a distinct condition: the severity string appears only inside
the generic "Executing alert" log line every severity gets. -/
theorem c7_amended_unknown_severity_no_op (msin : ℚ → ℚ) (mpi : ℚ)
    (id s : String)
    (hs : s ≠ "critical" ∧ s ≠ "high" ∧ s ≠ "medium" ∧ s ≠ "low") :
    effectFor msin mpi s = [] ∧
    executeAlert msin mpi ⟨id, s⟩ none =
      [Event.logExecuting id s, Event.setActive true,
       Event.setActive false, Event.logCompleted id] ∧
    activeAfter (executeAlert msin mpi ⟨id, s⟩ none) = false ∧
    (∀ e ∈ executeAlert msin mpi ⟨id, s⟩ none,
      kindOf e ∈ [EventKind.executing, EventKind.active, EventKind.completed]) := by
  obtain ⟨h1, h2, h3, h4⟩ := hs
  have heff : effectFor msin mpi s = [] := by
    unfold effectFor
    rw [if_neg h1, if_neg h2, if_neg h3, if_neg h4]
  have htr : executeAlert msin mpi ⟨id, s⟩ none =
      [Event.logExecuting id s, Event.setActive true,
       Event.setActive false, Event.logCompleted id] := by
    unfold executeAlert effMid
    rw [heff]
    rfl
  refine ⟨heff, htr, ?_, ?_⟩
  · rw [htr]
    rfl
  · rw [htr]
    intro e he
    simp only [List.mem_cons, List.not_mem_nil, or_false] at he
    rcases he with rfl | rfl | rfl | rfl <;> simp [kindOf]

/-- Witness for C7 amended at the spec's own example severity
"unknown_level". -/
theorem c7_amended_unknown_severity_witness :
    effectFor (fun _ => 0) 0 "unknown_level" = [] ∧
    executeAlert (fun _ => 0) 0 ⟨"a9", "unknown_level"⟩ none =
      [Event.logExecuting "a9" "unknown_level", Event.setActive true,
       Event.setActive false, Event.logCompleted "a9"] ∧
    activeAfter (executeAlert (fun _ => 0) 0 ⟨"a9", "unknown_level"⟩ none) = false ∧
    (∀ e ∈ executeAlert (fun _ => 0) 0 ⟨"a9", "unknown_level"⟩ none,
      kindOf e ∈ [EventKind.executing, EventKind.active, EventKind.completed]) :=
  c7_amended_unknown_severity_no_op (fun _ => 0) 0 "a9" "unknown_level"
    ⟨by decide, by decide, by decide, by decide⟩

/- ================= C9 ================= -/

/-- The fields of `HardwareAlertRequest` (`models.py`) the ingress handler
reads: the schema-validated severity, the alert type, and the device id
nested in `sensor_data`. -/
structure HardwareAlertRequest where
  severity : String
  alert_type : String
  device_id : String
  deriving DecidableEq, Repr

/-- The outward calls of the `/api/v1/hardware-alert` handler: the
arguments of its `queue_alert(...)` call and the severity it passes to
`log_alert_queued`. -/
structure IngressCall where
  queuedSeverity : String
  queuedAlertType : String
  queuedDeviceId : String
  loggedSeverity : String
  deriving DecidableEq, Repr

/-- `hardware_alert(request)` in `main.py`: calls
`queue_alert(severity="critical", alert_type=request.alert_type,
device_id=request.sensor_data.device_id)` — the severity literal, not the
request's — and passes `request.severity` to `log_alert_queued`. -/
def hardware_alert (req : HardwareAlertRequest) : IngressCall :=
  { queuedSeverity := "critical"
    queuedAlertType := req.alert_type
    queuedDeviceId := req.device_id
    loggedSeverity := req.severity }

/-- C9: for every HTTP alert request, the handler enqueues with severity
"critical" regardless of the request's severity field, which is only
logged; consequently the dispatched effect is always the critical one and
the high/medium/low effect branches are unreachable through the HTTP
path. -/
theorem c9_http_always_critical (req : HardwareAlertRequest)
    (msin : ℚ → ℚ) (mpi : ℚ) :
    (hardware_alert req).queuedSeverity = "critical" ∧
    (hardware_alert req).loggedSeverity = req.severity ∧
    (hardware_alert req).queuedAlertType = req.alert_type ∧
    (hardware_alert req).queuedDeviceId = req.device_id ∧
    effectFor msin mpi (hardware_alert req).queuedSeverity =
      criticalAlert msin mpi ∧
    (hardware_alert req).queuedSeverity ≠ "high" ∧
    (hardware_alert req).queuedSeverity ≠ "medium" ∧
    (hardware_alert req).queuedSeverity ≠ "low" := by
  refine ⟨rfl, rfl, rfl, rfl, ?_, ?_, ?_, ?_⟩
  · unfold effectFor hardware_alert
    rw [if_pos rfl]
  · show ("critical" : String) ≠ "high"
    decide
  · show ("critical" : String) ≠ "medium"
    decide
  · show ("critical" : String) ≠ "low"
    decide

/- ================= C10 ================= -/

/-- Duty and level state the effects act on, plus `is_active`: the three
PWM duties (channels constructed with initial duty 0.0), the buzzer line
(`request_output(buzzer_pin, initial=0)`), and the `is_active` flag
(false at construction). -/
structure HWState where
  dutyR : ℚ
  dutyG : ℚ
  dutyB : ℚ
  buzzer : Nat
  isActive : Bool
  deriving DecidableEq, Repr

/-- Controller state right after construction. -/
def initState : HWState := ⟨0, 0, 0, 0, false⟩

/-- Apply one event to the state: `setColor r g b` stores the duties
written through `set_rgb_color` → `set_duty` (each argument passes
`clamp01` twice, once per call); `setBuzzer v` writes the buzzer line
through `Gpio.set_level`'s `1 if value else 0` normalisation; `setActive`
writes `is_active`; log lines and sleeps change no state. -/
def applyEvent (s : HWState) (e : Event) : HWState :=
  match e with
  | .setActive b => { s with isActive := b }
  | .act (.setBuzzer v) => { s with buzzer := if v ≠ 0 then 1 else 0 }
  | .act (.setColor r g b) =>
      { s with dutyR := clamp01 (clamp01 r), dutyG := clamp01 (clamp01 g),
               dutyB := clamp01 (clamp01 b) }
  | _ => s

/-- Replay a sequence of events over the state. -/
def runEvents (s : HWState) (es : List Event) : HWState :=
  es.foldl applyEvent s

lemma runEvents_append (s : HWState) (xs ys : List Event) :
    runEvents s (xs ++ ys) = runEvents (runEvents s xs) ys :=
  List.foldl_append applyEvent s xs ys

lemma clamp01_idem (x : ℚ) : clamp01 (clamp01 x) = clamp01 x := by
  unfold clamp01
  have h0 : (0 : ℚ) ≤ max 0 (min 1 x) := le_max_left 0 _
  have h1 : max 0 (min 1 x) ≤ 1 := by
    rcases le_total x 1 with h | h
    · simp [min_eq_left h]
    · simp [min_eq_right h]
  rw [min_eq_right h1, max_eq_right h0]

lemma length_flatMap_pairs {α : Type} (A B : Nat → α) (l : List Nat) :
    (l.flatMap (fun k => [A k, B k])).length = 2 * l.length := by
  induction l with
  | nil => rfl
  | cons a t ih =>
      simp only [List.flatMap_cons, List.length_append, ih, List.length_cons]
      simp
      omega

lemma mem_sample_ne_buzzer (r g b : Nat → ℚ) (dt : ℚ) (l : List Nat) :
    ∀ a ∈ l.flatMap (fun k => [Act.setColor (r k) (g k) (b k), Act.sleep dt]),
      ∀ v, a ≠ Act.setBuzzer v := by
  intro a ha v
  simp only [List.mem_flatMap, List.mem_cons] at ha
  obtain ⟨k, -, hk⟩ := ha
  rcases hk with h | h | h
  · subst h; intro hc; cases hc
  · subst h; intro hc; cases hc
  · cases h

lemma runEvents_no_buzzer (s : HWState) (acts : List Act)
    (h : ∀ a ∈ acts, ∀ v, a ≠ Act.setBuzzer v) :
    (runEvents s (acts.map Event.act)).buzzer = s.buzzer ∧
    (runEvents s (acts.map Event.act)).isActive = s.isActive := by
  induction acts generalizing s with
  | nil => exact ⟨rfl, rfl⟩
  | cons a t ih =>
      have ht := ih (applyEvent s (Event.act a))
        (fun x hx v => h x (List.mem_cons_of_mem a hx) v)
      cases a with
      | setBuzzer v => exact absurd rfl (h _ (List.mem_cons_self _ t) v)
      | setColor r g b => exact ⟨ht.1, ht.2⟩
      | sleep dt => exact ⟨ht.1, ht.2⟩

lemma take_criticalAlert (msin : ℚ → ℚ) (mpi : ℚ) (k : Nat) (hk : k < 500) :
    (criticalAlert msin mpi).take (2 * k + 2) =
      Act.setBuzzer 1 ::
        ((List.range k).flatMap (fun j =>
          [Act.setColor (1/2 + 1/2 * msin (2 * mpi * 5 * ((j : ℚ) / 50))) 0 0,
           Act.sleep (1/50)]) ++
         [Act.setColor (1/2 + 1/2 * msin (2 * mpi * 5 * ((k : ℚ) / 50))) 0 0]) := by
  have happ := List.range'_append 0 k (500 - k) 1
  have h0k : 0 + 1 * k = k := by omega
  have h5 : 500 - k + k = 500 := by omega
  rw [h0k, h5] at happ
  have hsplit : List.range 500 = List.range k ++ List.range' k (500 - k) := by
    rw [List.range_eq_range' 500, List.range_eq_range' k]
    exact happ.symm
  have hd : 500 - k = (500 - k - 1) + 1 := by omega
  have hr2 : List.range' k (500 - k) = k :: List.range' (k + 1) (500 - k - 1) := by
    rw [hd, List.range'_succ]
    simp [Nat.add_sub_cancel]
  have hlen : ((List.range k).flatMap (fun j =>
      [Act.setColor (1/2 + 1/2 * msin (2 * mpi * 5 * ((j : ℚ) / 50))) 0 0,
       Act.sleep (1/50)])).length = 2 * k := by
    rw [length_flatMap_pairs
      (fun j => Act.setColor (1/2 + 1/2 * msin (2 * mpi * 5 * ((j : ℚ) / 50))) 0 0)
      (fun _ => Act.sleep (1/50)) (List.range k), List.length_range]
  rw [criticalAlert_eq msin mpi, hsplit, List.flatMap_append, hr2,
    List.flatMap_cons, List.append_assoc]
  rw [show 2 * k + 2 = (2 * k + 1) + 1 from rfl, List.take_succ_cons]
  rw [List.take_append_eq_append_take]
  have hle : ((List.range k).flatMap (fun j =>
      [Act.setColor (1/2 + 1/2 * msin (2 * mpi * 5 * ((j : ℚ) / 50))) 0 0,
       Act.sleep (1/50)])).length ≤ 2 * k + 1 := by
    rw [hlen]; omega
  rw [List.take_of_length_le hle]
  have h1 : 2 * k + 1 - ((List.range k).flatMap (fun j =>
      [Act.setColor (1/2 + 1/2 * msin (2 * mpi * 5 * ((j : ℚ) / 50))) 0 0,
       Act.sleep (1/50)])).length = 1 := by
    rw [hlen]; omega
  rw [h1]
  rfl

/-- C10: if the critical effect raises partway through — here after its
`2k+2`-th action, i.e. right after writing the k-th color sample —
`_execute_alert` swallows the exception: the trace ends with the error
log, `is_active := False` and the completion log, and nothing propagates.
But the restore-to-off steps at the effect's end are skipped: no
`setBuzzer 0` action ever executes, and the final state keeps the buzzer
energized (1) and the red duty at whatever the effect last wrote
(`clamp01` of the k-th sample) — no state rollback on error. -/
theorem c10_fault_keeps_last_state (msin : ℚ → ℚ) (mpi : ℚ) (id : String)
    (k : Nat) (hk : k < 500) :
    executeAlert msin mpi ⟨id, "critical"⟩ (some (2 * k + 2)) =
      [Event.logExecuting id "critical", Event.setActive true] ++
      ((Act.setBuzzer 1 ::
        ((List.range k).flatMap (fun j =>
          [Act.setColor (1/2 + 1/2 * msin (2 * mpi * 5 * ((j : ℚ) / 50))) 0 0,
           Act.sleep (1/50)]) ++
         [Act.setColor (1/2 + 1/2 * msin (2 * mpi * 5 * ((k : ℚ) / 50))) 0 0])).map
        Event.act) ++
      [Event.logError id, Event.setActive false, Event.logCompleted id] ∧
    Event.act (Act.setBuzzer 0) ∉
      executeAlert msin mpi ⟨id, "critical"⟩ (some (2 * k + 2)) ∧
    runEvents initState (executeAlert msin mpi ⟨id, "critical"⟩ (some (2 * k + 2))) =
      { dutyR := clamp01 (1/2 + 1/2 * msin (2 * mpi * 5 * ((k : ℚ) / 50))),
        dutyG := 0, dutyB := 0, buzzer := 1, isActive := false } := by
  have hcrit : effectFor msin mpi (AlertData.mk id "critical").severity =
      criticalAlert msin mpi := by
    show effectFor msin mpi "critical" = _
    unfold effectFor
    rw [if_pos rfl]
  have heq : executeAlert msin mpi ⟨id, "critical"⟩ (some (2 * k + 2)) =
      [Event.logExecuting id "critical", Event.setActive true] ++
      ((Act.setBuzzer 1 ::
        ((List.range k).flatMap (fun j =>
          [Act.setColor (1/2 + 1/2 * msin (2 * mpi * 5 * ((j : ℚ) / 50))) 0 0,
           Act.sleep (1/50)]) ++
         [Act.setColor (1/2 + 1/2 * msin (2 * mpi * 5 * ((k : ℚ) / 50))) 0 0])).map
        Event.act) ++
      [Event.logError id, Event.setActive false, Event.logCompleted id] := by
    simp only [executeAlert, effMid]
    rw [hcrit, take_criticalAlert msin mpi k hk]
    simp [List.append_assoc]
  refine ⟨heq, ?_, ?_⟩
  · rw [heq]
    intro hmem
    rcases List.mem_append.mp hmem with hmem1 | hmem2
    · rcases List.mem_append.mp hmem1 with hmem0 | hmemM
      · simp at hmem0
      · rcases List.mem_map.mp hmemM with ⟨x, hx, hax⟩
        have hx0 : x = Act.setBuzzer 0 := Event.act.inj hax
        subst hx0
        rcases List.mem_cons.mp hx with h | h
        · simp at h
        · rcases List.mem_append.mp h with hF | hs
          · exact absurd rfl
              (mem_sample_ne_buzzer
                (fun j => 1/2 + 1/2 * msin (2 * mpi * 5 * ((j : ℚ) / 50)))
                (fun _ => 0) (fun _ => 0) (1/50) (List.range k)
                (Act.setBuzzer 0) hF 0)
          · simp at hs
    · simp at hmem2
  · rw [heq]
    rw [runEvents_append, runEvents_append]
    have hA : runEvents initState
        [Event.logExecuting id "critical", Event.setActive true] =
        ⟨0, 0, 0, 0, true⟩ := rfl
    rw [hA, List.map_cons, List.map_append]
    have happly : applyEvent (⟨0, 0, 0, 0, true⟩ : HWState)
        (Event.act (Act.setBuzzer 1)) = ⟨0, 0, 0, 1, true⟩ := by
      simp [applyEvent]
    have hcons : ∀ l : List Event,
        runEvents (⟨0, 0, 0, 0, true⟩ : HWState)
          (Event.act (Act.setBuzzer 1) :: l) =
        runEvents (⟨0, 0, 0, 1, true⟩ : HWState) l := by
      intro l
      show runEvents (applyEvent (⟨0, 0, 0, 0, true⟩ : HWState)
        (Event.act (Act.setBuzzer 1))) l = _
      rw [happly]
    rw [hcons, runEvents_append]
    have hpres := runEvents_no_buzzer (⟨0, 0, 0, 1, true⟩ : HWState)
      ((List.range k).flatMap (fun j =>
        [Act.setColor (1/2 + 1/2 * msin (2 * mpi * 5 * ((j : ℚ) / 50))) 0 0,
         Act.sleep (1/50)]))
      (mem_sample_ne_buzzer
        (fun j => 1/2 + 1/2 * msin (2 * mpi * 5 * ((j : ℚ) / 50)))
        (fun _ => 0) (fun _ => 0) (1/50) (List.range k))
    rcases hs2 : runEvents (⟨0, 0, 0, 1, true⟩ : HWState)
        (((List.range k).flatMap (fun j =>
          [Act.setColor (1/2 + 1/2 * msin (2 * mpi * 5 * ((j : ℚ) / 50))) 0 0,
           Act.sleep (1/50)])).map Event.act) with ⟨r2, g2, b2, bz2, ac2⟩
    rw [hs2] at hpres
    have hbz : bz2 = 1 := hpres.1
    have hac : ac2 = true := hpres.2
    subst hbz
    subst hac
    simp only [List.map_cons, List.map_nil]
    show runEvents (runEvents (⟨r2, g2, b2, 1, true⟩ : HWState)
      [Event.act (Act.setColor (1/2 + 1/2 * msin (2 * mpi * 5 * ((k : ℚ) / 50))) 0 0)])
      [Event.logError id, Event.setActive false, Event.logCompleted id] = _
    simp [runEvents, applyEvent, clamp01_idem]
    norm_num [clamp01]

/-- Witness for C10 at a concrete fault point: critical alert interrupted
right after its 3rd color sample (action index 8). -/
theorem c10_fault_keeps_last_state_witness :
    Event.act (Act.setBuzzer 0) ∉
      executeAlert (fun _ => 0) 0 ⟨"a1", "critical"⟩ (some 8) ∧
    runEvents initState (executeAlert (fun _ => 0) 0 ⟨"a1", "critical"⟩ (some 8)) =
      { dutyR := clamp01 (1/2 + 1/2 * (0 : ℚ)), dutyG := 0, dutyB := 0,
        buzzer := 1, isActive := false } :=
  ⟨(c10_fault_keeps_last_state (fun _ => 0) 0 "a1" 3 (by norm_num)).2.1,
   (c10_fault_keeps_last_state (fun _ => 0) 0 "a1" 3 (by norm_num)).2.2⟩

end Kaelo
